import Mathlib

/-!
Verification of the `atmb-us-non-cmra` crawler against its specification.

The development shallowly embeds the Rust sources:
  * `src/smarty.rs`   — quota-aware credential pool (`SmartyClientProxy`),
    CMRA/RDI string coercion;
  * `src/utils.rs`    — `retry_wrapper` / `map_to_backoff_err` / `backoff_config`;
  * `src/atmb/page.rs`— state-page parsing helpers (`parse_city`, `parse_state`,
    `parse_zip`, `price`, conversions to `Address`/`Mailbox`);
  * `src/atmb/model.rs` — `Address.full_zip`;
  * `src/atmb/mod.rs` — Stage B count check in `ATMBCrawl::fetch` and the
    Stage C `update_street2_for_mailbox` failure policy.

Network I/O is represented by explicit oracles (a fetch outcome per item, an
outcome per retry attempt); machine integers by `Nat` (the `u32` counter never
nears `2^32` in any statement proved here, all bounds being ≤ 1002).
-/

namespace Atmb

/-! ## smarty.rs: quota-aware client pool

`ClientState` is a single `u32` counter, so the pool state is a `List Nat`,
one entry per configured credential slot, in configured order. -/

/-- Embeds `ClientState::is_exceeded` (src/smarty.rs): `self.lookups > 1000`. -/
def isExceeded (lookups : Nat) : Bool :=
  lookups > 1000

/-- Embeds `SmartyClientProxy::get_client_id`: index of the first slot whose
state is not exceeded; `none` models the `expect("all clients are exceeded")`
panic. -/
def getClientId (state : List Nat) : Option Nat :=
  state.findIdx? (fun l => !(isExceeded l))

/-- Embeds `SmartyClientProxy::update_state`: `state[idx].lookups += 1`. -/
def updateState (state : List Nat) (idx : Nat) : List Nat :=
  state.set idx (state.getD idx 0 + 1)

/-- Embeds `SmartyClientProxy::next_client`: pick the first non-exceeded slot
and increment its counter; `none` models the fatal all-exceeded panic. The
returned `Nat` is the index of the selected client. -/
def nextClient (state : List Nat) : Option (Nat × List Nat) :=
  match getClientId state with
  | none => none
  | some idx => some (idx, updateState state idx)

/-- Embeds `SmartyClientProxy::inquire_address`: select a client (incrementing
its counter at selection time), then issue the remote lookup, whose outcome is
supplied by the oracle `outcome` (`true` = the lookup returned additional info,
`false` = it failed, e.g. a zero-match response). The pool state transition is
taken before — and independently of — the lookup outcome. -/
def inquireAddress (outcome : Bool) (state : List Nat) : Option (Bool × List Nat) :=
  match nextClient state with
  | none => none
  | some (_, state') => some (outcome, state')

/-- `n` sequential `inquire_address` calls starting from `state`: returns the
list of selected slot indices in call order and the final state, or `none` if
some call hit the fatal all-exceeded condition. -/
def runCalls : Nat → List Nat → Option (List Nat × List Nat)
  | 0, state => some ([], state)
  | n + 1, state =>
    match nextClient state with
    | none => none
    | some (i, state') =>
      match runCalls n state' with
      | none => none
      | some (is, final) => some (i :: is, final)

/-! ### Basic selection lemmas -/

theorem getClientId_eq_some (state : List Nat) (i : Nat)
    (h : getClientId state = some i) :
    i < state.length ∧ isExceeded (state.getD i 0) = false ∧
      ∀ j, j < i → isExceeded (state.getD j 0) = true := by
  unfold getClientId at h
  induction state generalizing i with
  | nil => simp [List.findIdx?] at h
  | cons x xs ih =>
    rw [List.findIdx?_cons] at h
    by_cases hx : isExceeded x = false
    · simp [hx] at h
      subst h
      refine ⟨Nat.succ_pos _, by simpa using hx, ?_⟩
      intro j hj
      omega
    · have hx' : isExceeded x = true := by
        cases hxe : isExceeded x
        · exact absurd hxe hx
        · rfl
      simp [hx'] at h
      obtain ⟨i', hi', rfl⟩ := h
      have := ih i' hi'
      refine ⟨by simpa using Nat.succ_lt_succ this.1, by simpa using this.2.1, ?_⟩
      intro j hj
      cases j with
      | zero => simpa using hx'
      | succ j' =>
        have := this.2.2 j' (by omega)
        simpa using this

theorem getClientId_eq_none (state : List Nat)
    (h : ∀ l ∈ state, isExceeded l = true) :
    getClientId state = none := by
  unfold getClientId
  rw [List.findIdx?_eq_none_iff]
  intro x hx
  simp [h x hx]

/-- While the first of two slots has counter `c ≤ 1000`, every sequential call
selects slot 0; `n` calls take `[c, d]` to `[c + n, d]` provided `c + n ≤ 1001`. -/
theorem runCalls_two_slots (n : Nat) : ∀ c d : Nat, c + n ≤ 1001 →
    runCalls n [c, d] = some (List.replicate n 0, [c + n, d]) := by
  induction n with
  | zero => intro c d _; simp [runCalls]
  | succ n ih =>
    intro c d h
    have hc : c ≤ 1000 := by omega
    have hsel : nextClient [c, d] = some (0, [c + 1, d]) := by
      have : isExceeded c = false := by
        simp [isExceeded]
        omega
      simp [nextClient, getClientId, List.findIdx?_cons, this, updateState,
        List.getD, List.set]
    have := ih (c + 1) d (by omega)
    simp only [runCalls, hsel, this]
    have harith : c + 1 + n = c + (n + 1) := by omega
    simp [harith, List.replicate_succ]

/-- C1 (Quota rotation): every call selects the first slot in configured order
whose counter is not exceeded (`lookups > 1000`), incrementing that slot's
counter on selection; from a fresh two-slot pool, calls 1..1001 are all routed
through slot 0 (leaving state `[1001, 0]`), call 1002 overflows to slot 1, and
once every slot's counter exceeds 1000 the next selection fails fatally. -/
theorem quota_rotation :
    (∀ state i, getClientId state = some i →
      isExceeded (state.getD i 0) = false ∧
      (∀ j, j < i → isExceeded (state.getD j 0) = true) ∧
      nextClient state = some (i, state.set i (state.getD i 0 + 1)))
    ∧ runCalls 1001 [0, 0] = some (List.replicate 1001 0, [1001, 0])
    ∧ nextClient [1001, 0] = some (1, [1001, 1])
    ∧ (∀ state, (∀ l ∈ state, isExceeded l = true) → nextClient state = none) := by
  refine ⟨?_, ?_, ?_, ?_⟩
  · intro state i h
    have hc := getClientId_eq_some state i h
    exact ⟨hc.2.1, hc.2.2, by simp [nextClient, h, updateState]⟩
  · simpa only [Nat.zero_add] using runCalls_two_slots 1001 0 0 (by omega)
  · rfl
  · intro state h
    simp [nextClient, getClientId_eq_none state h]

/-- Witness for `quota_rotation`: its hypothesis-bearing conjuncts applied at
concrete inputs. -/
theorem quota_rotation_witness :
    nextClient [1001, 1001] = none ∧
      (isExceeded ([5, 0].getD 0 0) = false ∧
        (∀ j, j < 0 → isExceeded (([5, 0] : List Nat).getD j 0) = true) ∧
        nextClient [5, 0] = some (0, [6, 0])) :=
  ⟨quota_rotation.2.2.2 [1001, 1001] (by decide),
    quota_rotation.1 [5, 0] 0 (by decide)⟩

/-- C10 (quota counts attempts, not successes): a successful slot selection
increments exactly the selected slot's counter by exactly 1; no counter is ever
decremented; and the resulting pool state of `inquire_address` is determined at
selection time, identically whether the remote lookup then succeeds or fails —
a failed inquiry still consumes one unit of the selected slot's quota. -/
theorem quota_counts_attempts :
    ∀ state i state', nextClient state = some (i, state') →
      state'.getD i 0 = state.getD i 0 + 1
      ∧ (∀ j, j ≠ i → state'.getD j 0 = state.getD j 0)
      ∧ (∀ j, state.getD j 0 ≤ state'.getD j 0)
      ∧ (∀ outcome, inquireAddress outcome state = some (outcome, state')) := by
  intro state i state' h
  have hid : getClientId state = some i ∧ state' = state.set i (state.getD i 0 + 1) := by
    unfold nextClient at h
    cases hg : getClientId state with
    | none => rw [hg] at h; exact absurd h (by simp)
    | some k =>
      rw [hg] at h
      simp [updateState] at h
      obtain ⟨rfl, rfl⟩ := h
      exact ⟨rfl, by simp [List.getD]⟩
  have hlen : i < state.length := (getClientId_eq_some state i hid.1).1
  obtain ⟨-, hst⟩ := hid
  subst hst
  refine ⟨?_, ?_, ?_, ?_⟩
  · simp [List.getD, List.getElem?_set, hlen]
  · intro j hj
    simp [List.getD, List.getElem?_set, (Ne.symm hj)]
  · intro j
    by_cases hj : j = i
    · subst hj
      simp [List.getD, List.getElem?_set, hlen]
    · simp [List.getD, List.getElem?_set, (Ne.symm hj)]
  · intro outcome
    simp [inquireAddress, h]

/-- Witness for `quota_counts_attempts` at a concrete pool state. -/
theorem quota_counts_attempts_witness :
    ([3, 7] : List Nat).getD 0 0 ≤ ([4, 7] : List Nat).getD 0 0 ∧
      ∀ outcome, inquireAddress outcome [3, 7] = some (outcome, [4, 7]) :=
  ⟨(quota_counts_attempts [3, 7] 0 [4, 7] (by decide)).2.2.1 0,
    (quota_counts_attempts [3, 7] 0 [4, 7] (by decide)).2.2.2⟩

/-! ## utils.rs: retry_wrapper / map_to_backoff_err / backoff_config

The wrapped async operation is modelled by an oracle `f : Nat → Except ε ι`
giving the outcome of the `cur`-th invocation (1-indexed, matching the
`cur_times.fetch_add(1) + 1` counter in `retry_wrapper`). The `backoff::retry`
driver reruns the operation after a delay while errors are classified
transient, and stops on a permanent error. -/

/-- Embeds `backoff::Error`: the classification attached to a failure. -/
inductive BackoffErr (ε : Type) : Type where
  | transient (e : ε) : BackoffErr ε
  | permanent (e : ε) : BackoffErr ε
  deriving DecidableEq

/-- Embeds `map_to_backoff_err` (src/utils.rs): a failure on attempt
`curTimes` is permanent iff `curTimes > maxTimes`, transient otherwise. -/
def mapToBackoffErr {ε : Type} (curTimes maxTimes : Nat) (e : ε) : BackoffErr ε :=
  if curTimes > maxTimes then .permanent e else .transient e

/-- Embeds the `backoff::future::retry` loop as driven by `retry_wrapper`'s
closure: invoke the operation for attempt `cur`; return on success; on failure
classify via `map_to_backoff_err` and either stop (permanent) or rerun the next
attempt after the backoff delay (transient). -/
def retryLoop {ε ι : Type} (f : Nat → Except ε ι) (maxTimes cur : Nat) :
    Except ε ι :=
  match f cur with
  | .ok v => .ok v
  | .error e =>
    match mapToBackoffErr cur maxTimes e with
    | .permanent e' => .error e'
    | .transient _ =>
      if h : maxTimes + 1 - (cur + 1) < maxTimes + 1 - cur then
        retryLoop f maxTimes (cur + 1)
      else
        .error e
  termination_by maxTimes + 1 - cur

/-- Embeds `retry_wrapper` (src/utils.rs): the attempt counter starts at 0 and
the first invocation observes `times = 1`. -/
def retryWrapper {ε ι : Type} (retryTimes : Nat) (f : Nat → Except ε ι) :
    Except ε ι :=
  retryLoop f retryTimes 1

/-- Embeds `backoff_config` (src/utils.rs): intervals in milliseconds. -/
structure ExponentialBackoffConfig where
  initialInterval : Nat
  maxInterval : Nat

def backoffConfig : ExponentialBackoffConfig :=
  { initialInterval := 1000, maxInterval := 5000 }

/-- On a transient failure (`cur ≤ maxTimes`) the loop reruns the operation as
attempt `cur + 1`. -/
theorem retryLoop_transient_step {ε ι : Type} (f : Nat → Except ε ι)
    (maxTimes cur : Nat) (e : ε) (hf : f cur = .error e) (hcur : cur ≤ maxTimes) :
    retryLoop f maxTimes cur = retryLoop f maxTimes (cur + 1) := by
  have hperm : mapToBackoffErr cur maxTimes e = BackoffErr.transient e := by
    simp [mapToBackoffErr]
    omega
  rw [retryLoop]
  simp only [hf, hperm]
  rw [dif_pos (by omega)]

/-- On a permanent failure (`cur > maxTimes`) the loop surfaces the error. -/
theorem retryLoop_permanent_step {ε ι : Type} (f : Nat → Except ε ι)
    (maxTimes cur : Nat) (e : ε) (hf : f cur = .error e) (hcur : maxTimes < cur) :
    retryLoop f maxTimes cur = .error e := by
  have hperm : mapToBackoffErr cur maxTimes e = BackoffErr.permanent e := by
    simp [mapToBackoffErr]
    omega
  rw [retryLoop]
  simp only [hf, hperm]

/-- On a success the loop returns it. -/
theorem retryLoop_ok {ε ι : Type} (f : Nat → Except ε ι)
    (maxTimes cur : Nat) (v : ι) (hf : f cur = .ok v) :
    retryLoop f maxTimes cur = .ok v := by
  rw [retryLoop]
  simp only [hf]

/-- The loop's behaviour from attempt `cur` depends only on the outcomes of
attempts `cur` through `maxTimes + 1`. -/
theorem retryLoop_depends_on_window {ε ι : Type} (f g : Nat → Except ε ι)
    (maxTimes : Nat) : ∀ cur, cur ≤ maxTimes + 1 →
    (∀ k, cur ≤ k → k ≤ maxTimes + 1 → f k = g k) →
    retryLoop f maxTimes cur = retryLoop g maxTimes cur := by
  suffices H : ∀ n cur, maxTimes + 1 - cur = n → cur ≤ maxTimes + 1 →
      (∀ k, cur ≤ k → k ≤ maxTimes + 1 → f k = g k) →
      retryLoop f maxTimes cur = retryLoop g maxTimes cur by
    exact fun cur hcur hagree => H (maxTimes + 1 - cur) cur rfl hcur hagree
  intro n
  induction n using Nat.strong_induction_on with
  | _ n ih =>
    intro cur hn hcur hagree
    have hfg : f cur = g cur := hagree cur (Nat.le_refl _) hcur
    cases hf : f cur with
    | ok v => rw [retryLoop_ok f _ _ v hf, retryLoop_ok g _ _ v (hfg ▸ hf)]
    | error e =>
      by_cases hle : cur ≤ maxTimes
      · rw [retryLoop_transient_step f _ _ e hf hle,
          retryLoop_transient_step g _ _ e (hfg ▸ hf) hle]
        exact ih (maxTimes + 1 - (cur + 1)) (by omega) (cur + 1) rfl (by omega)
          (fun k hk1 hk2 => hagree k (by omega) hk2)
      · rw [retryLoop_permanent_step f _ _ e hf (by omega),
          retryLoop_permanent_step g _ _ e (hfg ▸ hf) (by omega)]

/-- If every attempt in the window `[cur, maxTimes + 1]` fails, the loop makes
exactly those attempts and surfaces attempt `maxTimes + 1`'s error. -/
theorem retryLoop_all_fail {ε ι : Type} (f : Nat → Except ε ι) (e : Nat → ε)
    (maxTimes : Nat) : ∀ cur, cur ≤ maxTimes + 1 →
    (∀ k, cur ≤ k → k ≤ maxTimes + 1 → f k = .error (e k)) →
    retryLoop f maxTimes cur = .error (e (maxTimes + 1)) := by
  suffices H : ∀ n cur, maxTimes + 1 - cur = n → cur ≤ maxTimes + 1 →
      (∀ k, cur ≤ k → k ≤ maxTimes + 1 → f k = .error (e k)) →
      retryLoop f maxTimes cur = .error (e (maxTimes + 1)) by
    exact fun cur hcur hfail => H (maxTimes + 1 - cur) cur rfl hcur hfail
  intro n
  induction n using Nat.strong_induction_on with
  | _ n ih =>
    intro cur hn hcur hfail
    have hf : f cur = .error (e cur) := hfail cur (Nat.le_refl _) hcur
    by_cases hle : cur ≤ maxTimes
    · rw [retryLoop_transient_step f _ _ (e cur) hf hle]
      exact ih (maxTimes + 1 - (cur + 1)) (by omega) (cur + 1) rfl (by omega)
        (fun k hk1 hk2 => hfail k (by omega) hk2)
    · have hcur' : cur = maxTimes + 1 := by omega
      rw [retryLoop_permanent_step f _ _ (e cur) hf (by omega), hcur']

/-- C3 (Retry classification): with the attempt budget 3 of `retry_wrapper`'s
call sites, a failure on attempt `n` is transient iff `n ≤ 3` and permanent iff
`n > 3`; a transient failure reruns the operation as attempt `n + 1`; the
wrapper's result depends only on the outcomes of attempts 1 through 4 (the
operation is invoked at most 4 times); when attempts 1..4 all fail the terminal
error is attempt 4's; and the exponential backoff driving the delays starts at
1000 ms capped at 5000 ms. -/
theorem retry_classification :
    (∀ (ε : Type) (n : Nat) (e : ε),
      (mapToBackoffErr n 3 e = BackoffErr.transient e ↔ n ≤ 3) ∧
      (mapToBackoffErr n 3 e = BackoffErr.permanent e ↔ 3 < n))
    ∧ (∀ (ε ι : Type) (f : Nat → Except ε ι) (n : Nat) (e : ε),
        f n = .error e → n ≤ 3 → retryLoop f 3 n = retryLoop f 3 (n + 1))
    ∧ (∀ (ε ι : Type) (f g : Nat → Except ε ι),
        (∀ k, 1 ≤ k → k ≤ 4 → f k = g k) → retryWrapper 3 f = retryWrapper 3 g)
    ∧ (∀ (ε ι : Type) (f : Nat → Except ε ι) (e : Nat → ε),
        (∀ k, 1 ≤ k → k ≤ 4 → f k = .error (e k)) →
        retryWrapper 3 f = .error (e 4))
    ∧ backoffConfig.initialInterval = 1000 ∧ backoffConfig.maxInterval = 5000 := by
  refine ⟨?_, ?_, ?_, ?_, rfl, rfl⟩
  · intro ε n e
    constructor
    · unfold mapToBackoffErr
      split
      · simp
        omega
      · simp
        omega
    · unfold mapToBackoffErr
      split
      · simp
        omega
      · simp
        omega
  · intro ε ι f n e hf hn
    exact retryLoop_transient_step f 3 n e hf hn
  · intro ε ι f g hagree
    exact retryLoop_depends_on_window f g 3 1 (by omega) hagree
  · intro ε ι f e hfail
    exact retryLoop_all_fail f e 3 1 (by omega) hfail

/-- Witness for `retry_classification`: a concrete always-failing operation
surfaces its attempt-4 error, and attempt 2's failure is transient. -/
theorem retry_classification_witness :
    retryWrapper 3 (fun _ => (Except.error "boom" : Except String Nat)) =
      Except.error "boom"
    ∧ (mapToBackoffErr 2 3 "boom" = BackoffErr.transient "boom" ↔ 2 ≤ 3) :=
  ⟨retry_classification.2.2.2.1 String Nat (fun _ => Except.error "boom")
      (fun _ => "boom") (fun _ _ _ => rfl),
    (retry_classification.1 String 2 "boom").1⟩

/-! ## Character-list models of the Rust string operations

Strings are modelled through their character lists (`String.data`). The
helpers below embed the exact `str` iterator semantics used in
`src/atmb/page.rs`: `split` yields every (possibly empty) segment, `trim`
strips whitespace from both ends, `String::replace` rewrites every
non-overlapping occurrence left to right. All are structurally recursive so
concrete inputs evaluate inside the kernel. -/

/-- Rust `str::split(sep)` for a one-character separator: every string splits
into at least one (possibly empty) segment. -/
def splitOnSep (sep : Char) : List Char → List (List Char)
  | [] => [[]]
  | c :: cs =>
    if c = sep then [] :: splitOnSep sep cs
    else
      match splitOnSep sep cs with
      | [] => [[c]]
      | seg :: segs => (c :: seg) :: segs

/-- Rust `str::trim` (restricted to the ASCII whitespace the crawled pages
contain): drop whitespace from both ends. -/
def trimChars (l : List Char) : List Char :=
  ((l.dropWhile Char.isWhitespace).reverse.dropWhile Char.isWhitespace).reverse

/-- Fuelled core of Rust `String::replace(from, to)`: scan left to right; at a
position where `pat` matches, emit `rep` and skip the occurrence, otherwise
copy one character. Fuel is consumed one unit per emitted step; `replaceAll`
supplies enough fuel for the whole input. -/
def replaceAllFuel (pat rep : List Char) : Nat → List Char → List Char
  | 0, l => l
  | _ + 1, [] => []
  | fuel + 1, c :: cs =>
    if pat.isPrefixOf (c :: cs) && !pat.isEmpty then
      rep ++ replaceAllFuel pat rep fuel (cs.drop (pat.length - 1))
    else
      c :: replaceAllFuel pat rep fuel cs

/-- Rust `String::replace(from, to)` on character lists (for the non-empty
patterns the source uses). -/
def replaceAll (pat rep l : List Char) : List Char :=
  replaceAllFuel pat rep l.length l

/-! ### splitOnSep lemmas -/

theorem splitOnSep_ne_nil (sep : Char) (l : List Char) :
    splitOnSep sep l ≠ [] := by
  cases l with
  | nil => simp [splitOnSep]
  | cons c cs =>
    unfold splitOnSep
    by_cases hc : c = sep
    · simp [hc]
    · simp only [if_neg hc]
      cases splitOnSep sep cs <;> simp

theorem splitOnSep_of_not_mem (sep : Char) (l : List Char) (h : sep ∉ l) :
    splitOnSep sep l = [l] := by
  induction l with
  | nil => rfl
  | cons c cs ih =>
    have hc : c ≠ sep := fun hcs => h (hcs ▸ List.mem_cons_self c cs)
    have hcs : sep ∉ cs := fun hmem => h (List.mem_cons_of_mem c hmem)
    unfold splitOnSep
    simp only [if_neg hc, ih hcs]

theorem splitOnSep_append (sep : Char) (xs ys : List Char) (h : sep ∉ xs) :
    splitOnSep sep (xs ++ sep :: ys) = xs :: splitOnSep sep ys := by
  induction xs with
  | nil => simp [splitOnSep]
  | cons c cs ih =>
    have hc : c ≠ sep := fun hcs => h (hcs ▸ List.mem_cons_self c cs)
    have hcs : sep ∉ cs := fun hmem => h (List.mem_cons_of_mem c hmem)
    rw [List.cons_append, splitOnSep]
    simp only [if_neg hc, ih hcs]

/-- A list containing `sep` at most once is either `sep`-free or has exactly
one occurrence splitting it into two `sep`-free parts. -/
theorem count_le_one_cases (sep : Char) (l : List Char) (h : l.count sep ≤ 1) :
    sep ∉ l ∨ ∃ a b, l = a ++ sep :: b ∧ sep ∉ a ∧ sep ∉ b := by
  induction l with
  | nil => exact Or.inl (by simp)
  | cons c cs ih =>
    rw [List.count_cons] at h
    by_cases hc : c = sep
    · have hcount : cs.count sep = 0 := by
        simp [hc] at h
        omega
      have hnot : sep ∉ cs := List.count_eq_zero.mp hcount
      exact Or.inr ⟨[], cs, by simp [hc], by simp, hnot⟩
    · have hcs : cs.count sep ≤ 1 := by
        simp [hc] at h
        omega
      rcases ih hcs with hmem | ⟨a, b, rfl, ha, hb⟩
      · refine Or.inl ?_
        intro hm
        rcases List.mem_cons.mp hm with h1 | h2
        · exact hc h1.symm
        · exact hmem h2
      · refine Or.inr ⟨c :: a, b, by simp, ?_, hb⟩
        intro hmem
        rcases List.mem_cons.mp hmem with h1 | h2
        · exact hc h1.symm
        · exact ha h2

/-! ## model.rs and page.rs: domain model and state-page derivations -/

/-- Embeds `Address` (src/atmb/model.rs). -/
structure Address where
  line1 : String
  city : String
  state : String
  zip : String
  zip4 : Option String
  deriving DecidableEq

/-- Embeds `Address::full_zip` (src/atmb/model.rs). -/
def Address.full_zip (a : Address) : String :=
  match a.zip4 with
  | some zip4 => a.zip ++ "-" ++ zip4
  | none => a.zip

/-- Embeds `Mailbox` (src/atmb/model.rs). -/
structure Mailbox where
  name : String
  address : Address
  link : String
  price : String
  deriving DecidableEq

/-- Embeds `LocationHtmlInfo` (src/atmb/page.rs): the raw per-listing fields
extracted from a state page. `price` is the raw price text (the field); the
normalized form is `LocationHtmlInfo.normalizedPrice` below. -/
structure LocationHtmlInfo where
  name : String
  line1 : String
  line2 : String
  price : String
  link : String
  deriving DecidableEq

/-- Embeds `LocationHtmlInfo::parse_city`: `self.line2.split(",").next()`. -/
def LocationHtmlInfo.parseCity (info : LocationHtmlInfo) : Option String :=
  (splitOnSep ',' info.line2.data).head?.map (fun seg => String.mk seg)

/-- Embeds `LocationHtmlInfo::parse_state`:
`self.line2.split(",").skip(1).next().map(trim).and_then(|s| s.split(" ").next())`. -/
def LocationHtmlInfo.parseState (info : LocationHtmlInfo) : Option String :=
  (((splitOnSep ',' info.line2.data).drop 1).head?.map trimChars).bind
    (fun s => (splitOnSep ' ' s).head?.map (fun seg => String.mk seg))

/-- Embeds the inner `try_split_zip` of `LocationHtmlInfo::parse_zip`: split
the zip token on `-`; the part before the first `-` is the zip, the next
segment (when present) the zip4 extension. -/
def trySplitZip (zipStr : List Char) : Option (String × Option String) :=
  match splitOnSep '-' zipStr with
  | [] => none
  | z :: rest => some (String.mk z, rest.head?.map (fun s => String.mk s))

/-- Embeds `LocationHtmlInfo::parse_zip`: the second whitespace-delimited token
of the trimmed post-comma segment, split on `-`. -/
def LocationHtmlInfo.parseZip (info : LocationHtmlInfo) :
    Option (String × Option String) :=
  ((((splitOnSep ',' info.line2.data).drop 1).head?.map trimChars).bind
    (fun s => ((splitOnSep ' ' s).drop 1).head?)).bind trySplitZip

/-- Embeds the method `LocationHtmlInfo::price`:
`self.price.replace("Starting from", "").replace(" ", "")`. -/
def LocationHtmlInfo.normalizedPrice (info : LocationHtmlInfo) : String :=
  String.mk (replaceAll " ".data [] (replaceAll "Starting from".data [] info.price.data))

/-- Embeds `TryInto<Address> for LocationHtmlInfo` (src/atmb/page.rs): zip is
parsed first, then the `Address` literal's fields in written order (city,
state); any `None` aborts with a descriptive error. -/
def tryIntoAddress (info : LocationHtmlInfo) : Except String Address :=
  match info.parseZip with
  | none => .error ("Failed to parse zip code from: " ++ info.line2)
  | some (zip, zip4) =>
    match info.parseCity with
    | none => .error ("Failed to parse city from: " ++ info.line2)
    | some city =>
      match info.parseState with
      | none => .error ("Failed to parse state from: " ++ info.line2)
      | some state =>
        .ok { line1 := info.line1, city := city, state := state,
              zip := zip, zip4 := zip4 }

/-- Embeds `TryInto<Mailbox> for LocationHtmlInfo`. -/
def tryIntoMailbox (info : LocationHtmlInfo) : Except String Mailbox :=
  match tryIntoAddress info with
  | .error e => .error e
  | .ok addr =>
    .ok { name := info.name, address := addr, link := info.link,
          price := info.normalizedPrice }

/-! ## smarty.rs: CMRA / RDI string coercion -/

/-- Embeds `Rdi` (src/smarty.rs). -/
inductive Rdi : Type where
  | Residential : Rdi
  | Commercial : Rdi
  | Unknown : Rdi
  deriving DecidableEq

/-- Embeds `YesOrNo` (src/smarty.rs). -/
inductive YesOrNo : Type where
  | N : YesOrNo
  | Y : YesOrNo
  deriving DecidableEq

/-- Embeds `str::to_lowercase` for the ASCII strings the Smarty responses
carry. -/
def toLowercase (s : String) : String :=
  String.mk (s.data.map Char.toLower)

/-- Embeds `TryFrom<String> for Rdi`: match on the lowercased value; the error
carries the original string. -/
def Rdi.tryFrom (value : String) : Except String Rdi :=
  match toLowercase value with
  | "residential" => .ok .Residential
  | "commercial" => .ok .Commercial
  | "" => .ok .Unknown
  | _ => .error value

/-- Embeds `TryFrom<String> for YesOrNo`: match on the lowercased value. -/
def YesOrNo.tryFrom (value : String) : Except String YesOrNo :=
  match toLowercase value with
  | "y" => .ok .Y
  | "n" => .ok .N
  | _ => .error value

/-! ## C6: price normalization -/

/-- The normalization as the claim words it: strip the literal prefix phrase
"Starting from" exactly once, then remove every whitespace character
(internal, leading and trailing). -/
def priceClaimed (s : String) : String :=
  let stripped :=
    if ("Starting from".data).isPrefixOf s.data then
      s.data.drop ("Starting from".data).length
    else s.data
  String.mk (stripped.filter (fun c => !c.isWhitespace))

theorem replaceAllFuel_space_not_mem :
    ∀ (fuel : Nat) (l : List Char), l.length ≤ fuel →
      ' ' ∉ replaceAllFuel [' '] [] fuel l := by
  intro fuel
  induction fuel with
  | zero =>
    intro l hl
    have hnil : l = [] := List.eq_nil_of_length_eq_zero (Nat.le_zero.mp hl)
    subst hnil
    simp [replaceAllFuel]
  | succ fuel ih =>
    intro l hl
    cases l with
    | nil => simp [replaceAllFuel]
    | cons c cs =>
      rw [replaceAllFuel]
      by_cases hc : c = ' '
      · subst hc
        have hpre : ([' '].isPrefixOf (' ' :: cs) && !List.isEmpty [' ']) = true := by
          simp [List.isPrefixOf]
        rw [if_pos hpre]
        simp only [List.nil_append, List.drop_zero, List.length]
        exact fun hmem => ih cs (by simpa using Nat.le_of_succ_le_succ hl) (by simpa using hmem)
      · rw [if_neg (by
          simp [List.isPrefixOf]
          exact fun h' => absurd h'.symm hc)]
        intro hmem
        rcases List.mem_cons.mp hmem with h1 | h2
        · exact hc h1.symm
        · exact ih cs (by simpa using Nat.le_of_succ_le_succ hl) h2

/-- C6 counterexample: on a price text containing the phrase twice and a tab,
the code's normalization (replace every occurrence of the phrase, then remove
space characters only) differs from the claimed strip-the-prefix-once /
remove-all-whitespace normalization. -/
theorem price_normalization_counterexample :
    (LocationHtmlInfo.mk "" "" "" "Starting from Starting from\tUS$ 1" "").normalizedPrice
      ≠ priceClaimed "Starting from Starting from\tUS$ 1" := by
  decide

/-- C6 amended: normalization replaces every occurrence of the literal phrase
"Starting from" with the empty string and removes every space character
(U+0020; other whitespace is preserved). In particular the output never
contains a space, "Starting from US$ 9.99 / month" normalizes to
"US$9.99/month", and both phrase occurrences vanish while a tab survives in
the counterexample input. -/
theorem price_normalization_amended :
    (∀ info : LocationHtmlInfo, ' ' ∉ info.normalizedPrice.data)
    ∧ (LocationHtmlInfo.mk "" "" "" "Starting from US$ 9.99 / month" "").normalizedPrice
        = "US$9.99/month"
    ∧ (LocationHtmlInfo.mk "" "" "" "Starting from Starting from\tUS$ 1" "").normalizedPrice
        = "\tUS$1" := by
  refine ⟨?_, by decide, by decide⟩
  intro info
  exact replaceAllFuel_space_not_mem _ _ (Nat.le_refl _)

/-- Witness for `price_normalization_amended`: the no-space guarantee at a
concrete raw price. -/
theorem price_normalization_amended_witness :
    ' ' ∉ (LocationHtmlInfo.mk "" "" "" "US$ 9.99 / month" "").normalizedPrice.data :=
  price_normalization_amended.1 (LocationHtmlInfo.mk "" "" "" "US$ 9.99 / month" "")

/-! ## C8: enrichment response string coercion -/

/-- C8 counterexample: `"RESIDENTIAL"` is none of the three strings the claim
maps for RDI (`"Residential"`, `"Commercial"`, `""`), so the claim calls it a
hard parse error — yet the code lowercases before matching and parses it. -/
theorem cmra_rdi_coercion_counterexample :
    Rdi.tryFrom "RESIDENTIAL" = Except.ok Rdi.Residential
    ∧ "RESIDENTIAL" ≠ "Residential" ∧ "RESIDENTIAL" ≠ "Commercial"
    ∧ "RESIDENTIAL" ≠ "" :=
  ⟨rfl, by decide, by decide, by decide⟩

/-- C8 amended: the CMRA flag string maps case-insensitively to Y or N and any
other string is an error; the RDI classification string maps case-insensitively
to Residential or Commercial, the empty string to Unknown, and any other string
is a hard parse error carrying the offending value — never silently coerced. -/
theorem cmra_rdi_coercion_amended :
    (∀ s : String,
      (YesOrNo.tryFrom s = Except.ok YesOrNo.Y ↔ toLowercase s = "y")
      ∧ (YesOrNo.tryFrom s = Except.ok YesOrNo.N ↔ toLowercase s = "n")
      ∧ (toLowercase s ≠ "y" → toLowercase s ≠ "n" →
          YesOrNo.tryFrom s = Except.error s))
    ∧ (∀ s : String,
      (Rdi.tryFrom s = Except.ok Rdi.Residential ↔ toLowercase s = "residential")
      ∧ (Rdi.tryFrom s = Except.ok Rdi.Commercial ↔ toLowercase s = "commercial")
      ∧ (Rdi.tryFrom s = Except.ok Rdi.Unknown ↔ toLowercase s = "")
      ∧ (toLowercase s ≠ "residential" → toLowercase s ≠ "commercial" →
          toLowercase s ≠ "" → Rdi.tryFrom s = Except.error s)) := by
  constructor
  · intro s
    unfold YesOrNo.tryFrom
    split
    · rename_i heq
      simp [heq]
    · rename_i heq
      simp [heq]
    · rename_i hne1 hne2
      exact ⟨by simpa using hne1, by simpa using hne2, fun _ _ => rfl⟩
  · intro s
    unfold Rdi.tryFrom
    split
    · rename_i heq
      simp [heq]
    · rename_i heq
      simp [heq]
    · rename_i heq
      simp [heq]
    · rename_i hne1 hne2 hne3
      exact ⟨by simpa using hne1, by simpa using hne2, by simpa using hne3,
        fun _ _ _ => rfl⟩

/-- Witness for `cmra_rdi_coercion_amended`: the error cases at `"x"`. -/
theorem cmra_rdi_coercion_amended_witness :
    YesOrNo.tryFrom "x" = Except.error "x" ∧ Rdi.tryFrom "x" = Except.error "x" :=
  ⟨(cmra_rdi_coercion_amended.1 "x").2.2 (by decide) (by decide),
    (cmra_rdi_coercion_amended.2 "x").2.2.2 (by decide) (by decide) (by decide)⟩

/-! ## C7: zip parse / full_zip round-trip -/

theorem dropWhile_eq_self_of_head (p : Char → Bool) (l : List Char)
    (h : ∀ c, l.head? = some c → p c = false) : l.dropWhile p = l := by
  cases l with
  | nil => rfl
  | cons c cs => simp [List.dropWhile_cons, h c rfl]

/-- `trim` of the post-comma segment `" ST Z"`: the leading space goes, the
interior survives because `ST` and `Z` are non-empty and whitespace-free. -/
theorem trimChars_segment (st z : List Char) (hst : st ≠ [])
    (hstws : ∀ c ∈ st, c.isWhitespace = false)
    (hz : z ≠ []) (hzws : ∀ c ∈ z, c.isWhitespace = false) :
    trimChars (' ' :: (st ++ ' ' :: z)) = st ++ ' ' :: z := by
  unfold trimChars
  have h1 : (' ' :: (st ++ ' ' :: z)).dropWhile Char.isWhitespace
      = st ++ ' ' :: z := by
    rw [List.dropWhile_cons]
    rw [if_pos (by decide)]
    cases st with
    | nil => exact absurd rfl hst
    | cons s0 st' =>
      rw [List.cons_append, List.dropWhile_cons,
        if_neg (by simp [hstws s0 (List.mem_cons_self s0 st')])]
  rw [h1]
  have h2 : ((st ++ ' ' :: z).reverse).dropWhile Char.isWhitespace
      = (st ++ ' ' :: z).reverse := by
    apply dropWhile_eq_self_of_head
    intro c hc
    have hrev : (st ++ ' ' :: z).reverse = z.reverse ++ ' ' :: st.reverse := by
      simp
    rw [hrev] at hc
    cases hzr : z.reverse with
    | nil => exact absurd (by simpa using congrArg List.reverse hzr) hz
    | cons c0 cr =>
      rw [hzr] at hc
      simp at hc
      subst hc
      exact hzws c0 (by
        have : c0 ∈ z.reverse := hzr ▸ List.mem_cons_self c0 cr
        simpa using this)
  rw [h2, List.reverse_reverse]

/-- C7 (Zip parse / full_zip round-trip): for a second address line of the
exact form `City, ST Z` (city comma-free; state and zip tokens non-empty,
whitespace-free and comma-free) the zip token handed to `try_split_zip` is
exactly `Z`; when `Z` holds at most one `-`, the zip is the part before the
`-`, the zip4 the optional part after it (`none` when absent), and `full_zip`
of the resulting address reconstructs `Z` verbatim — in particular
`full_zip "12345" none = "12345"` and
`full_zip "12345" (some "6789") = "12345-6789"`. -/
theorem zip_roundtrip :
    (∀ (info : LocationHtmlInfo) (city st z : List Char),
      info.line2.data = city ++ ',' :: ' ' :: (st ++ ' ' :: z) →
      ',' ∉ city →
      st ≠ [] → (∀ c ∈ st, c.isWhitespace = false) → ',' ∉ st →
      z ≠ [] → (∀ c ∈ z, c.isWhitespace = false) → ',' ∉ z →
      info.parseZip = trySplitZip z
      ∧ ('-' ∉ z → trySplitZip z = some (String.mk z, none))
      ∧ (∀ a b, z = a ++ '-' :: b → '-' ∉ a → '-' ∉ b →
          trySplitZip z = some (String.mk a, some (String.mk b)))
      ∧ (z.count '-' ≤ 1 →
          ∀ zip zip4, trySplitZip z = some (zip, zip4) →
          ∀ line1F cityF stateF : String,
            Address.full_zip ⟨line1F, cityF, stateF, zip, zip4⟩ = String.mk z))
    ∧ Address.full_zip ⟨"", "City", "ST", "12345", none⟩ = "12345"
    ∧ Address.full_zip ⟨"", "City", "ST", "12345", some "6789"⟩ = "12345-6789" := by
  refine ⟨?_, by decide, by decide⟩
  intro info city st z hline hcity hst hstws hstc hz hzws hzc
  have hspace_st : ' ' ∉ st := fun hmem => by simpa using hstws ' ' hmem
  have hspace_z : ' ' ∉ z := fun hmem => by simpa using hzws ' ' hmem
  have hcomma_rest : ',' ∉ ' ' :: (st ++ ' ' :: z) := by
    intro hmem
    rcases List.mem_cons.mp hmem with h1 | h2
    · exact absurd h1 (by decide)
    · rcases List.mem_append.mp h2 with h3 | h4
      · exact hstc h3
      · rcases List.mem_cons.mp h4 with h5 | h6
        · exact absurd h5 (by decide)
        · exact hzc h6
  have hA : splitOnSep ',' info.line2.data = [city, ' ' :: (st ++ ' ' :: z)] := by
    rw [hline, splitOnSep_append ',' city _ hcity,
      splitOnSep_of_not_mem ',' _ hcomma_rest]
  have hC : trimChars (' ' :: (st ++ ' ' :: z)) = st ++ ' ' :: z :=
    trimChars_segment st z hst hstws hz hzws
  have hD : splitOnSep ' ' (st ++ ' ' :: z) = [st, z] := by
    rw [splitOnSep_append ' ' st z hspace_st, splitOnSep_of_not_mem ' ' z hspace_z]
  have h1 : info.parseZip = trySplitZip z := by
    unfold LocationHtmlInfo.parseZip
    rw [hA]
    simp [hC, hD]
  have h2 : '-' ∉ z → trySplitZip z = some (String.mk z, none) := by
    intro hdz
    unfold trySplitZip
    rw [splitOnSep_of_not_mem '-' z hdz]
    rfl
  have h3 : ∀ a b, z = a ++ '-' :: b → '-' ∉ a → '-' ∉ b →
      trySplitZip z = some (String.mk a, some (String.mk b)) := by
    intro a b hzeq hda hdb
    unfold trySplitZip
    rw [hzeq, splitOnSep_append '-' a b hda, splitOnSep_of_not_mem '-' b hdb]
    rfl
  refine ⟨h1, h2, h3, ?_⟩
  intro hcount zip zip4 htsz line1F cityF stateF
  rcases count_le_one_cases '-' z hcount with hnd | ⟨a, b, hzeq, hda, hdb⟩
  · rw [h2 hnd] at htsz
    injection htsz with hpair
    injection hpair with hzip hzip4
    subst hzip
    subst hzip4
    simp [Address.full_zip]
  · rw [h3 a b hzeq hda hdb] at htsz
    injection htsz with hpair
    injection hpair with hzip hzip4
    subst hzip
    subst hzip4
    subst hzeq
    show String.mk a ++ "-" ++ String.mk b = String.mk (a ++ '-' :: b)
    exact congrArg String.mk (by simp)

/-- Witness for `zip_roundtrip`: the line `"City, ST 12345-6789"` parses to
zip token `12345-6789` and `full_zip` reconstructs it. -/
theorem zip_roundtrip_witness :
    (LocationHtmlInfo.mk "N" "L" "City, ST 12345-6789" "P" "K").parseZip
        = trySplitZip ("12345-6789".data)
      ∧ Address.full_zip ⟨"", "", "", "12345", some "6789"⟩
        = String.mk ("12345-6789".data) := by
  have h := zip_roundtrip.1 (LocationHtmlInfo.mk "N" "L" "City, ST 12345-6789" "P" "K")
    ("City".data) ("ST".data) ("12345-6789".data) (by decide) (by decide)
    (by decide) (by decide) (by decide) (by decide) (by decide) (by decide)
  exact ⟨h.1, h.2.2.2 (by decide) "12345" (some "6789") (by decide) "" "" ""⟩

/-! ## C4: detail-page line-count branching -/

/-- Modelled from the spec: `LocationDetailPage` and its `street()` method are
missing from the provided sources — only their call site
`ATMBCrawl::fetch_location_detail_page` (src/atmb/mod.rs) and the import of
`LocationDetailPage` appear. Following spec §4.4: the parser locates the info
block's non-empty text lines, and the count of lines selects the street shape;
any other count is a structural parse failure. -/
def detailStreet (lines : List String) : Except String String :=
  match lines.length with
  | 4 => .ok (lines.getD 1 "")
  | 5 => .ok (lines.getD 1 "" ++ " " ++ lines.getD 2 "")
  | 6 => .ok (lines.getD 1 "" ++ " " ++ lines.getD 2 "" ++ " " ++ lines.getD 3 "")
  | _ => .error "layout assumption violated"

/-- C4 (Detail-page line-count branching): 4 non-empty lines give street =
line[1] verbatim; 5 give line[1] + " " + line[2]; 6 give line[1] + " " +
line[2] + " " + line[3]; any other count (e.g. 3 or 7) is a structural parse
failure. -/
theorem detail_line_count_branching :
    ∀ lines : List String,
      (lines.length = 4 → detailStreet lines = .ok (lines.getD 1 ""))
      ∧ (lines.length = 5 →
          detailStreet lines = .ok (lines.getD 1 "" ++ " " ++ lines.getD 2 ""))
      ∧ (lines.length = 6 →
          detailStreet lines
            = .ok (lines.getD 1 "" ++ " " ++ lines.getD 2 "" ++ " " ++ lines.getD 3 ""))
      ∧ (lines.length ≠ 4 → lines.length ≠ 5 → lines.length ≠ 6 →
          detailStreet lines = .error "layout assumption violated") := by
  intro lines
  refine ⟨?_, ?_, ?_, ?_⟩
  · intro h
    unfold detailStreet
    rw [h]
  · intro h
    unfold detailStreet
    rw [h]
  · intro h
    unfold detailStreet
    rw [h]
  · intro h4 h5 h6
    unfold detailStreet
    split
    · rename_i h
      exact absurd h h4
    · rename_i h
      exact absurd h h5
    · rename_i h
      exact absurd h h6
    · rfl

/-- Witness for `detail_line_count_branching`: the 4-line and 3-line cases. -/
theorem detail_line_count_branching_witness :
    detailStreet ["t", "a", "b", "c"] = .ok (["t", "a", "b", "c"].getD 1 "")
    ∧ detailStreet ["t", "a", "b"] = .error "layout assumption violated" :=
  ⟨(detail_line_count_branching ["t", "a", "b", "c"]).1 (by decide),
    (detail_line_count_branching ["t", "a", "b"]).2.2.2 (by decide) (by decide)
      (by decide)⟩

/-! ## C2: Stage C failure policy (`update_street2_for_mailbox`) -/

/-- A Stage C work item: a mailbox paired with the outcome of fetching and
parsing its detail page (`some street` = `detail_page.street()` succeeded;
`none` = the per-item fetch or parse failed). -/
abbrev StageCItem : Type := Mailbox × Option String

/-- The per-item future of `update_street2_for_mailbox`: on success overwrite
`address.line1` with the detail page's street; on failure produce the logged
error (carrying the item's link, as the `eyre!` message does). -/
def detailResult (item : StageCItem) : Except String Mailbox :=
  match item.2 with
  | some street =>
    .ok { item.1 with address := { item.1.address with line1 := street } }
  | none => .error item.1.link

/-- The mailbox an all-success run produces for an item. -/
def applyStreet (item : StageCItem) : Mailbox :=
  { item.1 with address := { item.1.address with line1 := item.2.getD "" } }

/-- `suc_list`: the `Ok` halves of the per-item results, in order (the
`partition(Result::is_ok)` + `filter_map(Result::ok)` of the source keeps
exactly these, in encounter order). -/
def sucList : List StageCItem → List Mailbox
  | [] => []
  | p :: rest =>
    match detailResult p with
    | .ok m => m :: sucList rest
    | .error _ => sucList rest

/-- `err_list`: the `Err` halves of the per-item results, in order. -/
def errList : List StageCItem → List String
  | [] => []
  | p :: rest =>
    match detailResult p with
    | .ok _ => errList rest
    | .error e => e :: errList rest

/-- Embeds `ATMBCrawl::update_street2_for_mailbox` (src/atmb/mod.rs):
partition the per-item results; bail with the collected errors when any item
failed, otherwise return the successes. -/
def updateStreet2ForMailbox (items : List StageCItem) :
    Except (List String) (List Mailbox) :=
  if !(errList items).isEmpty then .error (errList items)
  else .ok (sucList items)

def exceptOk {ε α : Type} : Except ε α → Bool
  | .ok _ => true
  | .error _ => false

theorem sucList_length_add_errList_length (items : List StageCItem) :
    (sucList items).length + (errList items).length = items.length := by
  induction items with
  | nil => rfl
  | cons p rest ih =>
    unfold sucList errList
    cases hp : detailResult p <;> simp <;> omega

theorem errList_eq_nil_iff (items : List StageCItem) :
    errList items = [] ↔ ∀ p ∈ items, p.2.isSome = true := by
  induction items with
  | nil => simp [errList]
  | cons p rest ih =>
    unfold errList
    cases hp2 : p.2 with
    | some street =>
      have hd : detailResult p
          = .ok { p.1 with address := { p.1.address with line1 := street } } := by
        unfold detailResult
        rw [hp2]
      rw [hd]
      simp only []
      rw [ih]
      constructor
      · intro hall q hq
        rcases List.mem_cons.mp hq with rfl | hq2
        · simp [hp2]
        · exact hall q hq2
      · intro hall q hq
        exact hall q (List.mem_cons_of_mem p hq)
    | none =>
      have hd : detailResult p = .error p.1.link := by
        unfold detailResult
        rw [hp2]
      rw [hd]
      constructor
      · intro hcontra
        exact absurd hcontra (by simp)
      · intro hall
        exact absurd (hall p (List.mem_cons_self p rest)) (by simp [hp2])

theorem sucList_of_all_some (items : List StageCItem)
    (h : ∀ p ∈ items, p.2.isSome = true) :
    sucList items = items.map applyStreet := by
  induction items with
  | nil => rfl
  | cons p rest ih =>
    unfold sucList
    cases hp2 : p.2 with
    | some street =>
      have hd : detailResult p
          = .ok { p.1 with address := { p.1.address with line1 := street } } := by
        unfold detailResult
        rw [hp2]
      rw [hd, List.map_cons]
      simp only []
      rw [ih (fun q hq => h q (List.mem_cons_of_mem p hq))]
      unfold applyStreet
      rw [hp2]
      simp
    | none =>
      exact absurd (h p (List.mem_cons_self p rest)) (by simp [hp2])

/-- C2 (Stage C failure policy): `update_street2_for_mailbox` drops failed
items from the success list but fails the run whenever any item failed —
equivalently whenever the success count differs from the input count; it
returns Ok exactly when every input mailbox's detail page was fetched and
parsed, and then the output is every input mailbox with `line1` replaced by
its detail street. -/
theorem stageC_failure_policy :
    ∀ items : List StageCItem,
      (exceptOk (updateStreet2ForMailbox items) = true ↔
        ∀ p ∈ items, p.2.isSome = true)
      ∧ (exceptOk (updateStreet2ForMailbox items) = true ↔
          (sucList items).length = items.length)
      ∧ ((sucList items).length ≠ items.length →
          updateStreet2ForMailbox items = .error (errList items))
      ∧ ((∀ p ∈ items, p.2.isSome = true) →
          updateStreet2ForMailbox items = .ok (items.map applyStreet)) := by
  intro items
  have hlen := sucList_length_add_errList_length items
  have hiff := errList_eq_nil_iff items
  have hok : exceptOk (updateStreet2ForMailbox items) = true ↔ errList items = [] := by
    unfold updateStreet2ForMailbox
    cases he : errList items with
    | nil => simp [exceptOk]
    | cons e es => simp [exceptOk]
  refine ⟨hok.trans hiff, ?_, ?_, ?_⟩
  · rw [hok]
    constructor
    · intro he
      rw [he] at hlen
      simpa using hlen
    · intro hl
      have : (errList items).length = 0 := by omega
      exact List.eq_nil_of_length_eq_zero this
  · intro hne
    have herr : errList items ≠ [] := by
      intro he
      rw [he] at hlen
      simp at hlen
      exact hne hlen
    unfold updateStreet2ForMailbox
    rw [if_pos (by simpa using herr)]
  · intro hall
    have herr : errList items = [] := hiff.mpr hall
    unfold updateStreet2ForMailbox
    rw [if_neg (by simp [herr])]
    rw [sucList_of_all_some items hall]

/-- Witness for `stageC_failure_policy`: a two-item batch where both detail
pages succeed yields both mailboxes with `line1` replaced. -/
theorem stageC_failure_policy_witness :
    updateStreet2ForMailbox
        [(Mailbox.mk "A" ⟨"old1", "C", "S", "1", none⟩ "lA" "pA", some "new1"),
         (Mailbox.mk "B" ⟨"old2", "C", "S", "2", none⟩ "lB" "pB", some "new2")]
      = .ok [Mailbox.mk "A" ⟨"new1", "C", "S", "1", none⟩ "lA" "pA",
             Mailbox.mk "B" ⟨"new2", "C", "S", "2", none⟩ "lB" "pB"] := by
  have h := (stageC_failure_policy
    [(Mailbox.mk "A" ⟨"old1", "C", "S", "1", none⟩ "lA" "pA", some "new1"),
     (Mailbox.mk "B" ⟨"old2", "C", "S", "2", none⟩ "lB" "pB", some "new2")]).2.2.2
    (by decide)
  simpa [applyStreet] using h

/-! ## C5: Stage B count invariant (`ATMBCrawl::fetch`) -/

/-- Embeds `StatePage::to_mailboxes` (src/atmb/page.rs): convert every listing
left to right; the first failing conversion aborts the whole page (Rust
`collect::<Result<Vec<_>, _>>`). -/
def toMailboxes : List LocationHtmlInfo → Except String (List Mailbox)
  | [] => .ok []
  | loc :: rest =>
    match tryIntoMailbox loc with
    | .error e => .error e
    | .ok m =>
      match toMailboxes rest with
      | .error e => .error e
      | .ok ms => .ok (m :: ms)

/-- `total_num` in `ATMBCrawl::fetch`: the listings parsed across all state
pages. -/
def totalNum (pages : List (List LocationHtmlInfo)) : Nat :=
  (pages.map List.length).sum

def exceptToOption {ε α : Type} : Except ε α → Option α
  | .ok a => some a
  | .error _ => none

/-- The `mailboxes` collection in `fetch`: pages whose conversion succeeded,
flattened (failed pages are logged and dropped by the `filter_map`). -/
def stageBMailboxes (pages : List (List LocationHtmlInfo)) : List Mailbox :=
  (pages.filterMap (fun sp => exceptToOption (toMailboxes sp))).flatten

/-- Embeds the Stage B count check in `ATMBCrawl::fetch` (src/atmb/mod.rs):
`if mailboxes.len() != total_num { bail!("Some mailboxes cannot be fetched") }`. -/
def fetchStageB (pages : List (List LocationHtmlInfo)) :
    Except String (List Mailbox) :=
  if (stageBMailboxes pages).length ≠ totalNum pages then
    .error "Some mailboxes cannot be fetched"
  else .ok (stageBMailboxes pages)

theorem toMailboxes_ok_length (l : List LocationHtmlInfo) (ms : List Mailbox)
    (h : toMailboxes l = .ok ms) : ms.length = l.length := by
  induction l generalizing ms with
  | nil =>
    unfold toMailboxes at h
    injection h with h
    subst h
    rfl
  | cons loc rest ih =>
    unfold toMailboxes at h
    cases h1 : tryIntoMailbox loc with
    | error e => rw [h1] at h; exact absurd h (by simp)
    | ok m =>
      rw [h1] at h
      cases h2 : toMailboxes rest with
      | error e => rw [h2] at h; exact absurd h (by simp)
      | ok ms' =>
        rw [h2] at h
        injection h with h
        subst h
        simpa using ih ms' h2

theorem stageBMailboxes_length (pages : List (List LocationHtmlInfo)) :
    (stageBMailboxes pages).length ≤ totalNum pages
    ∧ ((stageBMailboxes pages).length = totalNum pages ↔
        ∀ sp ∈ pages, exceptOk (toMailboxes sp) = true) := by
  induction pages with
  | nil => simp [stageBMailboxes, totalNum]
  | cons sp rest ih =>
    unfold stageBMailboxes totalNum at ih ⊢
    rw [List.map_cons, List.sum_cons]
    cases h1 : toMailboxes sp with
    | ok ms =>
      have hlen : ms.length = sp.length := toMailboxes_ok_length sp ms h1
      have hopt : (fun sp => exceptToOption (toMailboxes sp)) sp = some ms := by
        simp only [h1]
        rfl
      rw [List.filterMap_cons_some (f := fun sp => exceptToOption (toMailboxes sp)) (h := hopt), List.flatten_cons,
        List.length_append, hlen]
      constructor
      · have := ih.1
        omega
      · constructor
        · intro hsum q hq
          rcases List.mem_cons.mp hq with rfl | hq2
          · simp [h1, exceptOk]
          · exact (ih.2.mp (by omega)) q hq2
        · intro hall
          have := ih.2.mpr (fun q hq => hall q (List.mem_cons_of_mem sp hq))
          omega
    | error e =>
      have hne : sp ≠ [] := by
        intro hnil
        subst hnil
        exact absurd h1 (by simp [toMailboxes])
      have hpos : 1 ≤ sp.length := by
        cases sp with
        | nil => exact absurd rfl hne
        | cons a b => simp
      have hopt : (fun sp => exceptToOption (toMailboxes sp)) sp = none := by
        simp only [h1]
        rfl
      rw [List.filterMap_cons_none (f := fun sp => exceptToOption (toMailboxes sp)) (h := hopt)]
      constructor
      · have := ih.1
        omega
      · constructor
        · intro hsum
          exact absurd hsum (by
            have := ih.1
            omega)
        · intro hall
          have hcon := hall sp (List.mem_cons_self sp rest)
          rw [h1] at hcon
          exact absurd hcon (by simp [exceptOk])

/-- C5 (Stage B count invariant): `fetch` succeeds past Stage B iff every state
page's listing list converts completely; whenever the number of converted
mailboxes differs from the total number of parsed listings the run fails with
the count-mismatch error, even though the successfully converted mailboxes were
produced. -/
theorem stageB_count_invariant :
    ∀ pages : List (List LocationHtmlInfo),
      (exceptOk (fetchStageB pages) = true ↔
        ∀ sp ∈ pages, exceptOk (toMailboxes sp) = true)
      ∧ ((stageBMailboxes pages).length ≠ totalNum pages →
          fetchStageB pages = .error "Some mailboxes cannot be fetched")
      ∧ (exceptOk (fetchStageB pages) = true →
          fetchStageB pages = .ok (stageBMailboxes pages)) := by
  intro pages
  have hmain := stageBMailboxes_length pages
  refine ⟨?_, ?_, ?_⟩
  · unfold fetchStageB
    by_cases hlen : (stageBMailboxes pages).length = totalNum pages
    · rw [if_neg (by simpa using hlen)]
      simp only [exceptOk]
      exact iff_of_true trivial (hmain.2.mp hlen)
    · rw [if_pos (by simpa using hlen)]
      constructor
      · intro hcontra
        exact absurd hcontra (by simp [exceptOk])
      · intro hall
        exact absurd (hmain.2.mpr hall) hlen
  · intro hne
    unfold fetchStageB
    rw [if_pos (by simpa using hne)]
  · intro hok
    unfold fetchStageB at hok ⊢
    by_cases hlen : (stageBMailboxes pages).length = totalNum pages
    · rw [if_neg (by simpa using hlen)]
    · rw [if_pos (by simpa using hlen)] at hok
      exact absurd hok (by simp [exceptOk])

/-- Witness for `stageB_count_invariant`: one fully-converting page plus one
page whose single listing has an unparsable address — 1 mailbox converts but 2
listings were parsed, so the run fails with the count-mismatch error even
though a valid mailbox was produced. -/
theorem stageB_count_invariant_witness :
    fetchStageB
        [[LocationHtmlInfo.mk "Test" "123 Main St" "City, ST 12345"
            "Starting from US$ 9.99 / month" "lnk"],
         [LocationHtmlInfo.mk "Bad" "1 St" "NoComma" "p" "l"]]
      = .error "Some mailboxes cannot be fetched" :=
  (stageB_count_invariant
    [[LocationHtmlInfo.mk "Test" "123 Main St" "City, ST 12345"
        "Starting from US$ 9.99 / month" "lnk"],
     [LocationHtmlInfo.mk "Bad" "1 St" "NoComma" "p" "l"]]).2.1 (by decide)

end Atmb
